import Mathlib

/-!
# ShaderTypes.h, the header shared between the Metal shaders and the host code

The header declares three integer enumerations through `NS_ENUM(NSInteger, _)` and one
plain struct, `Uniforms`, of three `matrix_float4x4` members.  The development below
embeds

* each enumeration as an inductive type together with the integer written after `=`
  for each enumerator (`rawValue`);
* the two compilation contexts chosen by `#ifdef __METAL_VERSION__`, with the width of
  `NSInteger` in each, and the conversion of an enumerator to that underlying type;
* the struct declaration as its member list in declaration order, laid out by the
  C struct layout rule (each member at the next multiple of its alignment, the total
  rounded up to the largest member alignment);
* a byte-level store and load of a `Uniforms` value through that layout.

`matrix_float4x4` comes from `<simd/simd.h>` and `NSInteger` on the host from
`<Foundation/Foundation.h>`; neither header is part of the repository, so the size and
alignment of the matrix type and the host width of `NSInteger` are parameters.
-/

namespace ShaderTypes

/-! ## Enumerations -/

/-- `typedef NS_ENUM(NSInteger, BufferIndex)`, lines 23 to 28. -/
inductive BufferIndex where
  | BufferIndexMeshPositions
  | BufferIndexMeshGenerics
  | BufferIndexUniforms
  deriving DecidableEq, Repr, Fintype

/-- The initialiser written for each `BufferIndex` enumerator. -/
def BufferIndex.rawValue : BufferIndex → Int
  | .BufferIndexMeshPositions => 0
  | .BufferIndexMeshGenerics => 1
  | .BufferIndexUniforms => 2

/-- `typedef NS_ENUM(NSInteger, VertexAttribute)`, lines 30 to 35. -/
inductive VertexAttribute where
  | VertexAttributePosition
  | VertexAttributeNormal
  | VertexAttributeTexcoord
  deriving DecidableEq, Repr, Fintype

/-- The initialiser written for each `VertexAttribute` enumerator. -/
def VertexAttribute.rawValue : VertexAttribute → Int
  | .VertexAttributePosition => 0
  | .VertexAttributeNormal => 1
  | .VertexAttributeTexcoord => 2

/-- `typedef NS_ENUM(NSInteger, TextureIndex)`, lines 37 to 41. -/
inductive TextureIndex where
  | TextureIndexColor
  | TextureIndexShadow
  deriving DecidableEq, Repr, Fintype

/-- The initialiser written for each `TextureIndex` enumerator. -/
def TextureIndex.rawValue : TextureIndex → Int
  | .TextureIndexColor => 0
  | .TextureIndexShadow => 1

/-! ## The two compilation contexts -/

/-- The header is compiled twice: by the Metal compiler, where `__METAL_VERSION__` is
defined, and by the host compiler, where it is not (lines 14 to 19). -/
inductive Context where
  | shader
  | host
  deriving DecidableEq, Repr

/-- Width in bits of `NSInteger`.  In the shader context line 16 defines it as
`metal::int32_t`; in the host context it is whatever Foundation declares, taken as the
parameter `hostBits`. -/
def NSIntegerBits (hostBits : Nat) : Context → Nat
  | .shader => 32
  | .host => hostBits

/-- A value fits the two's complement signed integer type of `w` bits. -/
def Representable (w : Nat) (v : Int) : Prop :=
  -(2 ^ (w - 1) : Int) ≤ v ∧ v < 2 ^ (w - 1)

instance (w : Nat) (v : Int) : Decidable (Representable w v) := by
  unfold Representable; infer_instance

/-- Conversion of an integer to the signed type of `w` bits, wrapping modulo `2 ^ w`. -/
def wrapSigned (w : Nat) (v : Int) : Int :=
  (v + 2 ^ (w - 1)) % 2 ^ w - 2 ^ (w - 1)

/-- Value of a `BufferIndex` enumerator as seen in a context: `NS_ENUM` fixes the
underlying type of the enumeration to `NSInteger`. -/
def BufferIndex.valueIn (hostBits : Nat) (ctx : Context) (c : BufferIndex) : Int :=
  wrapSigned (NSIntegerBits hostBits ctx) c.rawValue

/-- Value of a `VertexAttribute` enumerator as seen in a context. -/
def VertexAttribute.valueIn (hostBits : Nat) (ctx : Context) (c : VertexAttribute) : Int :=
  wrapSigned (NSIntegerBits hostBits ctx) c.rawValue

/-- Value of a `TextureIndex` enumerator as seen in a context. -/
def TextureIndex.valueIn (hostBits : Nat) (ctx : Context) (c : TextureIndex) : Int :=
  wrapSigned (NSIntegerBits hostBits ctx) c.rawValue

/-! ## The `Uniforms` struct and its layout -/

/-- Size and alignment, in bytes, of a C type. -/
structure CType where
  size : Nat
  align : Nat
  deriving DecidableEq, Repr

/-- The members of the anonymous struct typedefed as `Uniforms`, lines 43 to 48. -/
inductive UniformsField where
  | projectionMatrix
  | modelViewMatrix
  | shadowViewMatrix
  deriving DecidableEq, Repr, Fintype

/-- The member list of `Uniforms` in declaration order; every member has the type
`matrix_float4x4`, whose size and alignment are the parameter `m`. -/
def Uniforms.members (m : CType) : List (UniformsField × CType) :=
  [(.projectionMatrix, m), (.modelViewMatrix, m), (.shadowViewMatrix, m)]

/-- Least multiple of `a` that is at least `off`. -/
def alignUp (off a : Nat) : Nat :=
  (off + a - 1) / a * a

/-- C struct layout: members are placed in declaration order, each at the least offset
not below the end of the previous member that is a multiple of its alignment. -/
def layoutFrom {ι : Type} : Nat → List (ι × CType) → List (ι × Nat)
  | _, [] => []
  | off, (f, t) :: rest =>
      (f, alignUp off t.align) :: layoutFrom (alignUp off t.align + t.size) rest

/-- Offset just past the last member when the layout starts at `off`. -/
def endFrom {ι : Type} : Nat → List (ι × CType) → Nat
  | off, [] => off
  | off, (_, t) :: rest => endFrom (alignUp off t.align + t.size) rest

/-- Alignment of a struct: the largest alignment among its members. -/
def structAlign {ι : Type} (fields : List (ι × CType)) : Nat :=
  fields.foldl (fun a p => max a p.2.align) 1

/-- The `sizeof` of a struct: the end of its last member rounded up to the struct
alignment. -/
def structSize {ι : Type} (fields : List (ι × CType)) : Nat :=
  alignUp (endFrom 0 fields) (structAlign fields)

/-- Sum of the sizes of the members. -/
def membersSize {ι : Type} (fields : List (ι × CType)) : Nat :=
  (fields.map (fun p => p.2.size)).sum

/-- The `offsetof` of a member of `Uniforms`. -/
def Uniforms.offsetOf (m : CType) (f : UniformsField) : Option Nat :=
  (layoutFrom 0 (Uniforms.members m)).lookup f

/-- The `sizeof (Uniforms)`. -/
def Uniforms.sizeOf (m : CType) : Nat :=
  structSize (Uniforms.members m)

/-- Byte `b` of the struct belongs to member `f`. -/
def Uniforms.inField (m : CType) (f : UniformsField) (b : Nat) : Bool :=
  match Uniforms.offsetOf m f with
  | some o => decide (o ≤ b) && decide (b < o + m.size)
  | none => false

/-! ## `Uniforms` values and their raw memory block -/

/-- A value of `matrix_float4x4`: four columns of four 32-bit elements, each element
kept as its 32-bit word; `columns c r` is element `r` of column `c`. -/
structure matrix_float4x4 where
  columns : Fin 4 → Fin 4 → Nat

/-- A value of the struct `Uniforms`, lines 43 to 48. -/
structure Uniforms where
  projectionMatrix : matrix_float4x4
  modelViewMatrix : matrix_float4x4
  shadowViewMatrix : matrix_float4x4

/-- Every element of the matrix is a 32-bit word. -/
def matrix_float4x4.WellFormed (a : matrix_float4x4) : Prop :=
  ∀ c r : Fin 4, a.columns c r < 2 ^ 32

instance (a : matrix_float4x4) : Decidable a.WellFormed := by
  unfold matrix_float4x4.WellFormed; infer_instance

/-- Every element of the three matrices is a 32-bit word. -/
def Uniforms.WellFormed (u : Uniforms) : Prop :=
  u.projectionMatrix.WellFormed ∧ u.modelViewMatrix.WellFormed ∧
    u.shadowViewMatrix.WellFormed

instance (u : Uniforms) : Decidable u.WellFormed := by
  unfold Uniforms.WellFormed; infer_instance

/-- The member of a `Uniforms` value named by `f`. -/
def Uniforms.get (u : Uniforms) : UniformsField → matrix_float4x4
  | .projectionMatrix => u.projectionMatrix
  | .modelViewMatrix => u.modelViewMatrix
  | .shadowViewMatrix => u.shadowViewMatrix

/-- Store one byte at address `a` of a memory block. -/
def storeByte (mem : List Nat) (a b : Nat) : List Nat :=
  mem.set a b

/-- Load the byte at address `a` of a memory block. -/
def loadByte (mem : List Nat) (a : Nat) : Nat :=
  mem.getD a 0

/-- Store a 32-bit word at address `a`, least significant byte first. -/
def storeWord (mem : List Nat) (a w : Nat) : List Nat :=
  storeByte (storeByte (storeByte (storeByte mem a (w % 256)) (a + 1) (w / 256 % 256))
    (a + 2) (w / 65536 % 256)) (a + 3) (w / 16777216 % 256)

/-- Load the 32-bit word at address `a`, least significant byte first. -/
def loadWord (mem : List Nat) (a : Nat) : Nat :=
  loadByte mem a + 256 * loadByte mem (a + 1) + 65536 * loadByte mem (a + 2) +
    16777216 * loadByte mem (a + 3)

/-- Address of element `r` of column `c` of a matrix stored at `base`: columns of
16 bytes one after the other, elements of 4 bytes inside a column. -/
def elemAddr (base : Nat) (s : Fin 4 × Fin 4) : Nat :=
  base + 16 * s.1.val + 4 * s.2.val

/-- The sixteen elements of a matrix in memory order. -/
def matrixSlots : List (Fin 4 × Fin 4) :=
  [(0, 0), (0, 1), (0, 2), (0, 3), (1, 0), (1, 1), (1, 2), (1, 3),
   (2, 0), (2, 1), (2, 2), (2, 3), (3, 0), (3, 1), (3, 2), (3, 3)]

/-- Store a matrix at address `base`. -/
def storeMatrix (mem : List Nat) (base : Nat) (a : matrix_float4x4) : List Nat :=
  matrixSlots.foldl (fun acc s => storeWord acc (elemAddr base s) (a.columns s.1 s.2)) mem

/-- Load a matrix from address `base`. -/
def loadMatrix (mem : List Nat) (base : Nat) : matrix_float4x4 :=
  ⟨fun c r => loadWord mem (elemAddr base (c, r))⟩

/-- Modelled from the spec: the host code that fills the uniform buffer is not among the
sources; the spec says the struct "is transferred as a raw memory block across the
CPU/GPU boundary".  The block has `sizeof (Uniforms)` bytes, initially zero, and each
member is stored at its `offsetof`. -/
def writeUniforms (m : CType) (u : Uniforms) : List Nat :=
  (layoutFrom 0 (Uniforms.members m)).foldl
    (fun acc p => storeMatrix acc p.2 (u.get p.1))
    (List.replicate (Uniforms.sizeOf m) 0)

/-- Modelled from the spec: the shader code that reads the uniform buffer is not among
the sources; the spec has the value "read back by GPU-side code (or a test harness
simulating GPU-side memory layout)".  Each member is loaded from its `offsetof`. -/
def readUniforms (m : CType) (mem : List Nat) : Uniforms :=
  { projectionMatrix := loadMatrix mem ((Uniforms.offsetOf m .projectionMatrix).getD 0)
    modelViewMatrix := loadMatrix mem ((Uniforms.offsetOf m .modelViewMatrix).getD 0)
    shadowViewMatrix := loadMatrix mem ((Uniforms.offsetOf m .shadowViewMatrix).getD 0) }

/-- The `Uniforms` value used to instantiate the round trip: elements from the low and
the high end of the 32-bit range. -/
def sampleUniforms : Uniforms :=
  { projectionMatrix := ⟨fun c r => 4294967295 - (4 * c.val + r.val)⟩
    modelViewMatrix := ⟨fun c r => 1000000 * c.val + r.val⟩
    shadowViewMatrix := ⟨fun c r => 3 + 16 * c.val + 77777 * r.val⟩ }

/-! ## Helper lemmas on the integer conversion and the layout -/

theorem wrapSigned_of_representable (w : Nat) (v : Int) (hw : 0 < w)
    (h : Representable w v) : wrapSigned w v = v := by
  obtain ⟨k, rfl⟩ : ∃ k, w = k + 1 := ⟨w - 1, by omega⟩
  unfold Representable at h
  unfold wrapSigned
  simp only [Nat.add_sub_cancel] at h ⊢
  have hpos : (0 : Int) < 2 ^ k := by positivity
  have h2 : (2 : Int) ^ (k + 1) = 2 * 2 ^ k := by ring
  rw [h2, Int.emod_eq_of_lt (by omega) (by omega)]
  omega

theorem four_le_two_pow (w : Nat) (hw : 3 ≤ w) : (4 : Int) ≤ 2 ^ (w - 1) := by
  obtain ⟨k, rfl⟩ : ∃ k, w = k + 3 := ⟨w - 3, by omega⟩
  have hpos : (1 : Int) ≤ 2 ^ k := by
    have : (0 : Int) < 2 ^ k := by positivity
    omega
  have h2 : (2 : Int) ^ (k + 3 - 1) = 4 * 2 ^ k := by
    rw [show k + 3 - 1 = k + 2 by omega]; ring
  rw [h2]; omega

theorem representable_of_small (w : Nat) (v : Int) (hw : 3 ≤ w) (h0 : 0 ≤ v) (h2 : v ≤ 2) :
    Representable w v := by
  have := four_le_two_pow w hw
  unfold Representable
  constructor <;> omega

theorem nsIntegerBits_ge (hostBits : Nat) (h : 3 ≤ hostBits) (ctx : Context) :
    3 ≤ NSIntegerBits hostBits ctx := by
  cases ctx <;> simp [NSIntegerBits, h]

theorem alignUp_of_dvd (off a : Nat) (ha : 0 < a) (h : a ∣ off) : alignUp off a = off := by
  obtain ⟨k, rfl⟩ := h
  unfold alignUp
  have h1 : (a * k + a - 1) / a = k := by
    rw [Nat.add_sub_assoc ha, Nat.mul_comm a k, Nat.add_comm, Nat.add_mul_div_right _ _ ha,
      Nat.div_eq_of_lt (by omega)]
    omega
  rw [h1, Nat.mul_comm]

theorem uniforms_structAlign (m : CType) (ha : 0 < m.align) :
    structAlign (Uniforms.members m) = m.align := by
  simp only [structAlign, Uniforms.members, List.foldl_cons, List.foldl_nil]
  omega

theorem uniforms_layout (m : CType) (ha : 0 < m.align) (hd : m.align ∣ m.size) :
    layoutFrom 0 (Uniforms.members m) =
      [(.projectionMatrix, 0), (.modelViewMatrix, m.size), (.shadowViewMatrix, 2 * m.size)] := by
  have h0 : alignUp 0 m.align = 0 := alignUp_of_dvd 0 m.align ha (Nat.dvd_zero _)
  have h1 : alignUp m.size m.align = m.size := alignUp_of_dvd _ _ ha hd
  have h2 : alignUp (m.size + m.size) m.align = m.size + m.size :=
    alignUp_of_dvd _ _ ha (Nat.dvd_add hd hd)
  simp only [Uniforms.members, layoutFrom, h0, Nat.zero_add, h1, h2, Nat.two_mul]

theorem uniforms_end (m : CType) (ha : 0 < m.align) (hd : m.align ∣ m.size) :
    endFrom 0 (Uniforms.members m) = 3 * m.size := by
  have h0 : alignUp 0 m.align = 0 := alignUp_of_dvd 0 m.align ha (Nat.dvd_zero _)
  have h1 : alignUp m.size m.align = m.size := alignUp_of_dvd _ _ ha hd
  have h2 : alignUp (m.size + m.size) m.align = m.size + m.size :=
    alignUp_of_dvd _ _ ha (Nat.dvd_add hd hd)
  simp only [Uniforms.members, endFrom, h0, Nat.zero_add, h1, h2]
  omega

theorem uniforms_sizeOf (m : CType) (ha : 0 < m.align) (hd : m.align ∣ m.size) :
    Uniforms.sizeOf m = 3 * m.size := by
  unfold Uniforms.sizeOf structSize
  rw [uniforms_end m ha hd, uniforms_structAlign m ha]
  exact alignUp_of_dvd _ _ ha (Dvd.dvd.mul_left hd 3)

theorem uniforms_offsetOf (m : CType) (ha : 0 < m.align) (hd : m.align ∣ m.size) :
    Uniforms.offsetOf m .projectionMatrix = some 0 ∧
    Uniforms.offsetOf m .modelViewMatrix = some m.size ∧
    Uniforms.offsetOf m .shadowViewMatrix = some (2 * m.size) := by
  unfold Uniforms.offsetOf
  rw [uniforms_layout m ha hd]
  refine ⟨rfl, rfl, rfl⟩

/-! ## Helper lemmas on the memory block -/

theorem length_storeByte (mem : List Nat) (a b : Nat) :
    (storeByte mem a b).length = mem.length := by
  simp [storeByte]

theorem loadByte_storeByte_same (mem : List Nat) (a b : Nat) (h : a < mem.length) :
    loadByte (storeByte mem a b) a = b := by
  simp [loadByte, storeByte, List.getElem?_set_self h]

theorem loadByte_storeByte_ne (mem : List Nat) (a b x : Nat) (h : a ≠ x) :
    loadByte (storeByte mem a b) x = loadByte mem x := by
  simp [loadByte, storeByte, List.getElem?_set_ne h]

theorem length_storeWord (mem : List Nat) (a w : Nat) :
    (storeWord mem a w).length = mem.length := by
  simp [storeWord, length_storeByte]

theorem loadByte_storeWord_other (mem : List Nat) (a w x : Nat) (h : x < a ∨ a + 4 ≤ x) :
    loadByte (storeWord mem a w) x = loadByte mem x := by
  unfold storeWord
  rw [loadByte_storeByte_ne _ _ _ _ (by omega), loadByte_storeByte_ne _ _ _ _ (by omega),
    loadByte_storeByte_ne _ _ _ _ (by omega), loadByte_storeByte_ne _ _ _ _ (by omega)]

theorem loadWord_storeWord_same (mem : List Nat) (a w : Nat) (hb : a + 4 ≤ mem.length)
    (hw : w < 2 ^ 32) : loadWord (storeWord mem a w) a = w := by
  have h0 : loadByte (storeWord mem a w) a = w % 256 := by
    unfold storeWord
    rw [loadByte_storeByte_ne _ _ _ _ (by omega), loadByte_storeByte_ne _ _ _ _ (by omega),
      loadByte_storeByte_ne _ _ _ _ (by omega)]
    exact loadByte_storeByte_same _ _ _ (by omega)
  have h1 : loadByte (storeWord mem a w) (a + 1) = w / 256 % 256 := by
    unfold storeWord
    rw [loadByte_storeByte_ne _ _ _ _ (by omega), loadByte_storeByte_ne _ _ _ _ (by omega)]
    exact loadByte_storeByte_same _ _ _ (by rw [length_storeByte]; omega)
  have h2 : loadByte (storeWord mem a w) (a + 2) = w / 65536 % 256 := by
    unfold storeWord
    rw [loadByte_storeByte_ne _ _ _ _ (by omega)]
    exact loadByte_storeByte_same _ _ _ (by rw [length_storeByte, length_storeByte]; omega)
  have h3 : loadByte (storeWord mem a w) (a + 3) = w / 16777216 % 256 := by
    unfold storeWord
    exact loadByte_storeByte_same _ _ _
      (by rw [length_storeByte, length_storeByte, length_storeByte]; omega)
  unfold loadWord
  rw [h0, h1, h2, h3]
  omega

theorem loadWord_storeWord_other (mem : List Nat) (a w x : Nat)
    (h : x + 4 ≤ a ∨ a + 4 ≤ x) : loadWord (storeWord mem a w) x = loadWord mem x := by
  unfold loadWord
  rw [loadByte_storeWord_other _ _ _ _ (by omega), loadByte_storeWord_other _ _ _ _ (by omega),
    loadByte_storeWord_other _ _ _ _ (by omega), loadByte_storeWord_other _ _ _ _ (by omega)]

theorem elemAddr_apart (base : Nat) (s t : Fin 4 × Fin 4) (h : s ≠ t) :
    elemAddr base s + 4 ≤ elemAddr base t ∨ elemAddr base t + 4 ≤ elemAddr base s := by
  obtain ⟨⟨c, hc⟩, ⟨r, hr⟩⟩ := s
  obtain ⟨⟨c2, hc2⟩, ⟨r2, hr2⟩⟩ := t
  simp only [elemAddr]
  have hne : c ≠ c2 ∨ r ≠ r2 := by
    by_contra hcon
    apply h
    have h1 : c = c2 := by omega
    have h2 : r = r2 := by omega
    subst h1 h2
    rfl
  omega

theorem elemAddr_bounds (base : Nat) (s : Fin 4 × Fin 4) :
    base ≤ elemAddr base s ∧ elemAddr base s + 4 ≤ base + 64 := by
  obtain ⟨⟨c, hc⟩, ⟨r, hr⟩⟩ := s
  simp only [elemAddr]
  omega

theorem length_foldl_storeWord (a : matrix_float4x4) (base : Nat) (l : List (Fin 4 × Fin 4))
    (mem : List Nat) :
    (l.foldl (fun acc s => storeWord acc (elemAddr base s) (a.columns s.1 s.2)) mem).length
      = mem.length := by
  induction l generalizing mem with
  | nil => rfl
  | cons s rest ih => rw [List.foldl_cons, ih, length_storeWord]

theorem loadWord_foldl_other (a : matrix_float4x4) (base x : Nat) (l : List (Fin 4 × Fin 4))
    (mem : List Nat)
    (h : ∀ s ∈ l, x + 4 ≤ elemAddr base s ∨ elemAddr base s + 4 ≤ x) :
    loadWord (l.foldl (fun acc s => storeWord acc (elemAddr base s) (a.columns s.1 s.2)) mem) x
      = loadWord mem x := by
  induction l generalizing mem with
  | nil => rfl
  | cons s rest ih =>
    rw [List.foldl_cons, ih _ (fun t ht => h t (List.mem_cons_of_mem _ ht)),
      loadWord_storeWord_other _ _ _ _ (h s (List.mem_cons_self _ _))]

theorem loadWord_foldl_same (a : matrix_float4x4) (base : Nat) (ha : a.WellFormed)
    (l : List (Fin 4 × Fin 4)) (mem : List Nat) (hl : l.Nodup) (hb : base + 64 ≤ mem.length)
    (s : Fin 4 × Fin 4) (hs : s ∈ l) :
    loadWord (l.foldl (fun acc s => storeWord acc (elemAddr base s) (a.columns s.1 s.2)) mem)
      (elemAddr base s) = a.columns s.1 s.2 := by
  induction l generalizing mem with
  | nil => cases hs
  | cons t rest ih =>
    rw [List.foldl_cons]
    rw [List.nodup_cons] at hl
    by_cases hst : s = t
    · subst hst
      rw [loadWord_foldl_other]
      · have := elemAddr_bounds base s
        exact loadWord_storeWord_same _ _ _ (by omega) (ha s.1 s.2)
      · intro t ht
        have hne : s ≠ t := fun e => hl.1 (e ▸ ht)
        exact elemAddr_apart base s t hne
    · have hmem : s ∈ rest := by
        rcases List.mem_cons.1 hs with e | e
        · exact absurd e hst
        · exact e
      exact ih _ hl.2 (by rw [length_storeWord]; exact hb) hmem

theorem matrixSlots_nodup : matrixSlots.Nodup := by decide

theorem mem_matrixSlots (s : Fin 4 × Fin 4) : s ∈ matrixSlots := by
  revert s; decide

theorem length_storeMatrix (mem : List Nat) (base : Nat) (a : matrix_float4x4) :
    (storeMatrix mem base a).length = mem.length :=
  length_foldl_storeWord a base matrixSlots mem

theorem loadMatrix_storeMatrix_same (mem : List Nat) (base : Nat) (a : matrix_float4x4)
    (ha : a.WellFormed) (hb : base + 64 ≤ mem.length) :
    loadMatrix (storeMatrix mem base a) base = a := by
  have hcols : (fun c r => loadWord (storeMatrix mem base a) (elemAddr base (c, r)))
      = a.columns := by
    funext c r
    unfold storeMatrix
    exact loadWord_foldl_same a base ha matrixSlots mem matrixSlots_nodup hb (c, r)
      (mem_matrixSlots (c, r))
  unfold loadMatrix
  rw [hcols]

theorem loadMatrix_storeMatrix_other (mem : List Nat) (base other : Nat) (a : matrix_float4x4)
    (h : other + 64 ≤ base ∨ base + 64 ≤ other) :
    loadMatrix (storeMatrix mem base a) other = loadMatrix mem other := by
  have hcols : (fun c r => loadWord (storeMatrix mem base a) (elemAddr other (c, r)))
      = (fun c r => loadWord mem (elemAddr other (c, r))) := by
    funext c r
    unfold storeMatrix
    apply loadWord_foldl_other
    intro s _
    have h1 := elemAddr_bounds base s
    have h2 := elemAddr_bounds other (c, r)
    omega
  unfold loadMatrix
  rw [hcols]

/-! ## Claims on the enumerations -/

/-- C1: the `BufferIndex` enumerators have exactly the values
`BufferIndexMeshPositions = 0`, `BufferIndexMeshGenerics = 1`, `BufferIndexUniforms = 2`. -/
theorem bufferIndex_values :
    BufferIndex.rawValue .BufferIndexMeshPositions = 0 ∧
    BufferIndex.rawValue .BufferIndexMeshGenerics = 1 ∧
    BufferIndex.rawValue .BufferIndexUniforms = 2 :=
  ⟨rfl, rfl, rfl⟩

/-- C2: the `VertexAttribute` enumerators have exactly the values
`VertexAttributePosition = 0`, `VertexAttributeNormal = 1`, `VertexAttributeTexcoord = 2`. -/
theorem vertexAttribute_values :
    VertexAttribute.rawValue .VertexAttributePosition = 0 ∧
    VertexAttribute.rawValue .VertexAttributeNormal = 1 ∧
    VertexAttribute.rawValue .VertexAttributeTexcoord = 2 :=
  ⟨rfl, rfl, rfl⟩

/-- C3: the `TextureIndex` enumerators have exactly the values
`TextureIndexColor = 0`, `TextureIndexShadow = 1`. -/
theorem textureIndex_values :
    TextureIndex.rawValue .TextureIndexColor = 0 ∧
    TextureIndex.rawValue .TextureIndexShadow = 1 :=
  ⟨rfl, rfl⟩

/-- C4: within each of the three enumerations, two different enumerators never share an
integer value, that is, the map from enumerator to value is injective. -/
theorem rawValue_injective :
    Function.Injective BufferIndex.rawValue ∧
    Function.Injective VertexAttribute.rawValue ∧
    Function.Injective TextureIndex.rawValue := by
  refine ⟨?_, ?_, ?_⟩
  · intro a b h
    cases a <;> cases b <;> first | rfl | (exfalso; revert h; decide)
  · intro a b h
    cases a <;> cases b <;> first | rfl | (exfalso; revert h; decide)
  · intro a b h
    cases a <;> cases b <;> first | rfl | (exfalso; revert h; decide)

/-- C8: whenever the host `NSInteger` has at least 3 bits (in particular when it is the
64-bit integer of the platform), every enumerator of the three enumerations fits
`NSInteger` in both contexts (32 bits on the shader side), converting it to `NSInteger`
does not change it, and so the shader side and the host side see the same value. -/
theorem enum_values_agree_across_contexts (hostBits : Nat) (h : 3 ≤ hostBits) :
    (∀ (ctx : Context) (c : BufferIndex),
        Representable (NSIntegerBits hostBits ctx) c.rawValue ∧
        c.valueIn hostBits ctx = c.rawValue) ∧
    (∀ (ctx : Context) (c : VertexAttribute),
        Representable (NSIntegerBits hostBits ctx) c.rawValue ∧
        c.valueIn hostBits ctx = c.rawValue) ∧
    (∀ (ctx : Context) (c : TextureIndex),
        Representable (NSIntegerBits hostBits ctx) c.rawValue ∧
        c.valueIn hostBits ctx = c.rawValue) ∧
    (∀ c : BufferIndex, c.valueIn hostBits .shader = c.valueIn hostBits .host) ∧
    (∀ c : VertexAttribute, c.valueIn hostBits .shader = c.valueIn hostBits .host) ∧
    (∀ c : TextureIndex, c.valueIn hostBits .shader = c.valueIn hostBits .host) := by
  have hb : ∀ (ctx : Context) (c : BufferIndex),
      Representable (NSIntegerBits hostBits ctx) c.rawValue ∧
      c.valueIn hostBits ctx = c.rawValue := by
    intro ctx c
    have hw := nsIntegerBits_ge hostBits h ctx
    have hr : Representable (NSIntegerBits hostBits ctx) c.rawValue := by
      apply representable_of_small _ _ hw <;> cases c <;> decide
    exact ⟨hr, wrapSigned_of_representable _ _ (by omega) hr⟩
  have hv : ∀ (ctx : Context) (c : VertexAttribute),
      Representable (NSIntegerBits hostBits ctx) c.rawValue ∧
      c.valueIn hostBits ctx = c.rawValue := by
    intro ctx c
    have hw := nsIntegerBits_ge hostBits h ctx
    have hr : Representable (NSIntegerBits hostBits ctx) c.rawValue := by
      apply representable_of_small _ _ hw <;> cases c <;> decide
    exact ⟨hr, wrapSigned_of_representable _ _ (by omega) hr⟩
  have ht : ∀ (ctx : Context) (c : TextureIndex),
      Representable (NSIntegerBits hostBits ctx) c.rawValue ∧
      c.valueIn hostBits ctx = c.rawValue := by
    intro ctx c
    have hw := nsIntegerBits_ge hostBits h ctx
    have hr : Representable (NSIntegerBits hostBits ctx) c.rawValue := by
      apply representable_of_small _ _ hw <;> cases c <;> decide
    exact ⟨hr, wrapSigned_of_representable _ _ (by omega) hr⟩
  refine ⟨hb, hv, ht, ?_, ?_, ?_⟩
  · intro c; rw [(hb .shader c).2, (hb .host c).2]
  · intro c; rw [(hv .shader c).2, (hv .host c).2]
  · intro c; rw [(ht .shader c).2, (ht .host c).2]

/-- C8 at the 64-bit host, where `hostBits = 64`. -/
theorem enum_values_agree_across_contexts_witness :
    3 ≤ 64 ∧
    ((∀ (ctx : Context) (c : BufferIndex),
        Representable (NSIntegerBits 64 ctx) c.rawValue ∧
        c.valueIn 64 ctx = c.rawValue) ∧
    (∀ (ctx : Context) (c : VertexAttribute),
        Representable (NSIntegerBits 64 ctx) c.rawValue ∧
        c.valueIn 64 ctx = c.rawValue) ∧
    (∀ (ctx : Context) (c : TextureIndex),
        Representable (NSIntegerBits 64 ctx) c.rawValue ∧
        c.valueIn 64 ctx = c.rawValue) ∧
    (∀ c : BufferIndex, c.valueIn 64 .shader = c.valueIn 64 .host) ∧
    (∀ c : VertexAttribute, c.valueIn 64 .shader = c.valueIn 64 .host) ∧
    (∀ c : TextureIndex, c.valueIn 64 .shader = c.valueIn 64 .host)) :=
  ⟨by decide, enum_values_agree_across_contexts 64 (by decide)⟩

/-- C9: the values of each enumeration are exactly the initial segment of the naturals
of its own length (`0, 1, 2` for `BufferIndex` and `VertexAttribute`, `0, 1` for
`TextureIndex`); the enumerations have 3, 3 and 2 enumerators; hence every enumerator is
non-negative, below the number of enumerators, and a valid position in any slot table of
that length. -/
theorem enum_values_contiguous :
    (∀ n : Int, (∃ c : BufferIndex, c.rawValue = n) ↔ n = 0 ∨ n = 1 ∨ n = 2) ∧
    (∀ n : Int, (∃ c : VertexAttribute, c.rawValue = n) ↔ n = 0 ∨ n = 1 ∨ n = 2) ∧
    (∀ n : Int, (∃ c : TextureIndex, c.rawValue = n) ↔ n = 0 ∨ n = 1) ∧
    Fintype.card BufferIndex = 3 ∧
    Fintype.card VertexAttribute = 3 ∧
    Fintype.card TextureIndex = 2 ∧
    (∀ c : BufferIndex, 0 ≤ c.rawValue ∧ c.rawValue < Fintype.card BufferIndex) ∧
    (∀ c : VertexAttribute, 0 ≤ c.rawValue ∧ c.rawValue < Fintype.card VertexAttribute) ∧
    (∀ c : TextureIndex, 0 ≤ c.rawValue ∧ c.rawValue < Fintype.card TextureIndex) ∧
    (∀ (α : Type) (table : List α), table.length = Fintype.card BufferIndex →
        ∀ c : BufferIndex, c.rawValue.toNat < table.length) ∧
    (∀ (α : Type) (table : List α), table.length = Fintype.card VertexAttribute →
        ∀ c : VertexAttribute, c.rawValue.toNat < table.length) ∧
    (∀ (α : Type) (table : List α), table.length = Fintype.card TextureIndex →
        ∀ c : TextureIndex, c.rawValue.toNat < table.length) := by
  have cb : Fintype.card BufferIndex = 3 := rfl
  have cv : Fintype.card VertexAttribute = 3 := rfl
  have ct : Fintype.card TextureIndex = 2 := rfl
  refine ⟨?_, ?_, ?_, cb, cv, ct, ?_, ?_, ?_, ?_, ?_, ?_⟩
  · intro n
    constructor
    · rintro ⟨c, rfl⟩; cases c <;> simp [BufferIndex.rawValue]
    · rintro (rfl | rfl | rfl)
      · exact ⟨.BufferIndexMeshPositions, rfl⟩
      · exact ⟨.BufferIndexMeshGenerics, rfl⟩
      · exact ⟨.BufferIndexUniforms, rfl⟩
  · intro n
    constructor
    · rintro ⟨c, rfl⟩; cases c <;> simp [VertexAttribute.rawValue]
    · rintro (rfl | rfl | rfl)
      · exact ⟨.VertexAttributePosition, rfl⟩
      · exact ⟨.VertexAttributeNormal, rfl⟩
      · exact ⟨.VertexAttributeTexcoord, rfl⟩
  · intro n
    constructor
    · rintro ⟨c, rfl⟩; cases c <;> simp [TextureIndex.rawValue]
    · rintro (rfl | rfl)
      · exact ⟨.TextureIndexColor, rfl⟩
      · exact ⟨.TextureIndexShadow, rfl⟩
  · intro c; rw [cb]; cases c <;> simp [BufferIndex.rawValue]
  · intro c; rw [cv]; cases c <;> simp [VertexAttribute.rawValue]
  · intro c; rw [ct]; cases c <;> simp [TextureIndex.rawValue]
  · intro α table hlen c; rw [hlen, cb]; cases c <;> simp [BufferIndex.rawValue]
  · intro α table hlen c; rw [hlen, cv]; cases c <;> simp [VertexAttribute.rawValue]
  · intro α table hlen c; rw [hlen, ct]; cases c <;> simp [TextureIndex.rawValue]

/-! ## Claims on the layout of `Uniforms` -/

/-- C5: when `matrix_float4x4` occupies 64 bytes (its alignment being any positive
divisor of its size, as for every C type), `sizeof (Uniforms)` is exactly
`3 * 64 = 192` bytes, which is the sum of the sizes of the three members: each member
starts where the previous one ends and the struct ends where the last member ends. -/
theorem uniforms_size_192 (m : CType) (hsize : m.size = 64) (ha : 0 < m.align)
    (hd : m.align ∣ m.size) :
    Uniforms.sizeOf m = 192 ∧
    Uniforms.sizeOf m = 3 * 64 ∧
    Uniforms.sizeOf m = membersSize (Uniforms.members m) ∧
    Uniforms.offsetOf m .projectionMatrix = some 0 ∧
    Uniforms.offsetOf m .modelViewMatrix = some (0 + m.size) ∧
    Uniforms.offsetOf m .shadowViewMatrix = some (0 + m.size + m.size) ∧
    Uniforms.sizeOf m = endFrom 0 (Uniforms.members m) := by
  have hs := uniforms_sizeOf m ha hd
  have he := uniforms_end m ha hd
  obtain ⟨o0, o1, o2⟩ := uniforms_offsetOf m ha hd
  refine ⟨by omega, by omega, ?_, o0, ?_, ?_, by omega⟩
  · rw [hs]; simp [membersSize, Uniforms.members]; omega
  · rw [o1]; simp
  · rw [o2]; congr 1; omega

/-- C5 at the matrix type of 64 bytes aligned to 16. -/
theorem uniforms_size_192_witness :
    (CType.mk 64 16).size = 64 ∧ 0 < (CType.mk 64 16).align ∧
    (CType.mk 64 16).align ∣ (CType.mk 64 16).size ∧
    Uniforms.sizeOf (CType.mk 64 16) = 192 :=
  ⟨rfl, by decide, by decide, (uniforms_size_192 (CType.mk 64 16) rfl (by decide) (by decide)).1⟩

/-- C6: when `matrix_float4x4` occupies 64 bytes aligned to 16, the members of `Uniforms`
sit in declaration order at byte offsets 0 (`projectionMatrix`), 64 (`modelViewMatrix`)
and 128 (`shadowViewMatrix`); each offset is a multiple of 16; no byte belongs to two
members; and a byte belongs to some member exactly when it is one of the bytes
`0 .. 191` of the struct, whose size is 192. -/
theorem uniforms_field_offsets (m : CType) (hsize : m.size = 64) (halign : m.align = 16) :
    Uniforms.offsetOf m .projectionMatrix = some 0 ∧
    Uniforms.offsetOf m .modelViewMatrix = some 64 ∧
    Uniforms.offsetOf m .shadowViewMatrix = some 128 ∧
    (∀ (f : UniformsField) (o : Nat), Uniforms.offsetOf m f = some o → o % m.align = 0) ∧
    (∀ (f g : UniformsField) (b : Nat),
        Uniforms.inField m f b = true → Uniforms.inField m g b = true → f = g) ∧
    (∀ b : Nat, (∃ f : UniformsField, Uniforms.inField m f b = true) ↔ b < 192) ∧
    Uniforms.sizeOf m = 192 := by
  obtain ⟨s, a⟩ := m
  simp only at hsize halign
  subst hsize halign
  have hoff := uniforms_offsetOf (CType.mk 64 16) (by decide) (by decide)
  obtain ⟨o0, o1, o2⟩ := hoff
  simp only [Nat.reduceMul] at o1 o2
  have hs : Uniforms.sizeOf (CType.mk 64 16) = 192 :=
    uniforms_sizeOf (CType.mk 64 16) (by decide) (by decide)
  have hin : ∀ (f : UniformsField) (b : Nat), Uniforms.inField (CType.mk 64 16) f b = true ↔
      (f = .projectionMatrix ∧ b < 64) ∨ (f = .modelViewMatrix ∧ 64 ≤ b ∧ b < 128) ∨
      (f = .shadowViewMatrix ∧ 128 ≤ b ∧ b < 192) := by
    intro f b
    cases f <;> simp [Uniforms.inField, o0, o1, o2]
  refine ⟨o0, o1, o2, ?_, ?_, ?_, hs⟩
  · intro f o ho
    cases f
    · rw [o0] at ho; cases ho; rfl
    · rw [o1] at ho; cases ho; rfl
    · rw [o2] at ho; cases ho; rfl
  · intro f g b hf hg
    rw [hin] at hf hg
    rcases hf with ⟨rfl, h1⟩ | ⟨rfl, h1⟩ | ⟨rfl, h1⟩ <;>
      rcases hg with ⟨rfl, h2⟩ | ⟨rfl, h2⟩ | ⟨rfl, h2⟩ <;> first | rfl | omega
  · intro b
    constructor
    · rintro ⟨f, hf⟩
      rw [hin] at hf
      omega
    · intro hb
      by_cases h1 : b < 64
      · exact ⟨.projectionMatrix, (hin _ _).2 (Or.inl ⟨rfl, h1⟩)⟩
      · by_cases h2 : b < 128
        · exact ⟨.modelViewMatrix, (hin _ _).2 (Or.inr (Or.inl ⟨rfl, by omega, h2⟩))⟩
        · exact ⟨.shadowViewMatrix, (hin _ _).2 (Or.inr (Or.inr ⟨rfl, by omega, hb⟩))⟩

/-- C6 at the matrix type of 64 bytes aligned to 16. -/
theorem uniforms_field_offsets_witness :
    (CType.mk 64 16).size = 64 ∧ (CType.mk 64 16).align = 16 ∧
    Uniforms.offsetOf (CType.mk 64 16) .projectionMatrix = some 0 ∧
    Uniforms.offsetOf (CType.mk 64 16) .modelViewMatrix = some 64 ∧
    Uniforms.offsetOf (CType.mk 64 16) .shadowViewMatrix = some 128 :=
  ⟨rfl, rfl, (uniforms_field_offsets (CType.mk 64 16) rfl rfl).1,
    (uniforms_field_offsets (CType.mk 64 16) rfl rfl).2.1,
    (uniforms_field_offsets (CType.mk 64 16) rfl rfl).2.2.1⟩

/-- C7: with `matrix_float4x4` of 64 bytes aligned to 16 and every matrix element a
32-bit word, writing a `Uniforms` value as the raw block given by the struct layout
yields a block of 192 bytes, and reading that block back with the same layout returns
the value written, equal in every element of `projectionMatrix`, `modelViewMatrix` and
`shadowViewMatrix`. -/
theorem uniforms_roundtrip (m : CType) (hsize : m.size = 64) (halign : m.align = 16)
    (u : Uniforms) (hu : u.WellFormed) :
    (writeUniforms m u).length = 192 ∧
    readUniforms m (writeUniforms m u) = u ∧
    (∀ c r : Fin 4,
      (readUniforms m (writeUniforms m u)).projectionMatrix.columns c r
        = u.projectionMatrix.columns c r ∧
      (readUniforms m (writeUniforms m u)).modelViewMatrix.columns c r
        = u.modelViewMatrix.columns c r ∧
      (readUniforms m (writeUniforms m u)).shadowViewMatrix.columns c r
        = u.shadowViewMatrix.columns c r) := by
  obtain ⟨s, a⟩ := m
  simp only at hsize halign
  subst hsize halign
  obtain ⟨o0, o1, o2⟩ := uniforms_offsetOf (CType.mk 64 16) (by decide) (by decide)
  simp only [Nat.reduceMul] at o1 o2
  have hs : Uniforms.sizeOf (CType.mk 64 16) = 192 :=
    uniforms_sizeOf (CType.mk 64 16) (by decide) (by decide)
  have hlay := uniforms_layout (CType.mk 64 16) (by decide) (by decide)
  simp only [Nat.reduceMul] at hlay
  obtain ⟨p, mv, sv⟩ := u
  obtain ⟨hp, hmv, hsv⟩ := hu
  simp only at hp hmv hsv
  have hw : writeUniforms (CType.mk 64 16) ⟨p, mv, sv⟩ =
      storeMatrix (storeMatrix (storeMatrix (List.replicate 192 0) 0 p) 64 mv) 128 sv := by
    unfold writeUniforms
    rw [hlay, hs]
    simp only [List.foldl_cons, List.foldl_nil, Uniforms.get]
  have hlen : (writeUniforms (CType.mk 64 16) ⟨p, mv, sv⟩).length = 192 := by
    rw [hw, length_storeMatrix, length_storeMatrix, length_storeMatrix, List.length_replicate]
  have hread : readUniforms (CType.mk 64 16) (writeUniforms (CType.mk 64 16) ⟨p, mv, sv⟩)
      = ⟨p, mv, sv⟩ := by
    have h1 : loadMatrix (storeMatrix (storeMatrix (storeMatrix (List.replicate 192 0) 0 p)
        64 mv) 128 sv) 0 = p := by
      rw [loadMatrix_storeMatrix_other _ _ _ _ (by omega),
        loadMatrix_storeMatrix_other _ _ _ _ (by omega)]
      exact loadMatrix_storeMatrix_same _ _ _ hp (by rw [List.length_replicate]; omega)
    have h2 : loadMatrix (storeMatrix (storeMatrix (storeMatrix (List.replicate 192 0) 0 p)
        64 mv) 128 sv) 64 = mv := by
      rw [loadMatrix_storeMatrix_other _ _ _ _ (by omega)]
      exact loadMatrix_storeMatrix_same _ _ _ hmv
        (by rw [length_storeMatrix, List.length_replicate]; omega)
    have h3 : loadMatrix (storeMatrix (storeMatrix (storeMatrix (List.replicate 192 0) 0 p)
        64 mv) 128 sv) 128 = sv :=
      loadMatrix_storeMatrix_same _ _ _ hsv
        (by rw [length_storeMatrix, length_storeMatrix, List.length_replicate])
    unfold readUniforms
    rw [o0, o1, o2, hw]
    simp only [Option.getD_some]
    rw [h1, h2, h3]
  refine ⟨hlen, hread, ?_⟩
  intro c r
  rw [hread]
  exact ⟨rfl, rfl, rfl⟩

/-- C7 at `sampleUniforms` with the matrix type of 64 bytes aligned to 16. -/
theorem uniforms_roundtrip_witness :
    (CType.mk 64 16).size = 64 ∧ (CType.mk 64 16).align = 16 ∧ sampleUniforms.WellFormed ∧
    readUniforms (CType.mk 64 16) (writeUniforms (CType.mk 64 16) sampleUniforms)
      = sampleUniforms :=
  ⟨rfl, rfl, by decide,
    (uniforms_roundtrip (CType.mk 64 16) rfl rfl sampleUniforms (by decide)).2.1⟩

end ShaderTypes
